import Mathlib

/-!
Verification of the copy-trading reconciliation engine
(`examples/copy_trade.py`): a shallow embedding in Lean 4 of the order
sizing and constraint logic (`CopyTrader.place_copy_order`), the copy-ratio
recalculation (`CopyTrader.adjust_copy_percentage` and the constructor),
the per-cycle reconciliation step (`CopyTrader.monitor_positions`) and the
error-counting monitoring loop (`CopyTrader.start_monitoring`).

Sizes, prices and account values are modelled as exact rationals; Python's
`round(x, n)` (round half to even at `n` decimal digits) is modelled by
`pyRound`.  External calls (order submission, leverage and margin
configuration, notifications) are modelled as emitted events; the success
of the leverage/margin calls is a boolean parameter.
-/

namespace CopyTrade

/-- Round a rational to the nearest integer, ties to even
(Python's `round` applied to an integer target). -/
def roundHalfEven (x : ℚ) : ℤ :=
  let f : ℤ := ⌊x⌋
  let frac : ℚ := x - f
  if frac < 1/2 then f
  else if 1/2 < frac then f + 1
  else if f % 2 = 0 then f else f + 1

/-- Python's `round(x, n)`: round half to even at `n` decimal places. -/
def pyRound (x : ℚ) (n : ℕ) : ℚ :=
  (roundHalfEven (x * (10 : ℚ) ^ n) : ℚ) / (10 : ℚ) ^ n

/-- The per-coin rounding precision used throughout `place_copy_order` and
`monitor_positions`: 4 decimals for BTC/ETH, 2 for SOL and everything else. -/
def coinPrecision (coin : String) : ℕ :=
  if coin = "BTC" ∨ coin = "ETH" then 4
  else if coin = "SOL" then 2
  else 2

/-- Constant `MIN_TRADE_VALUE_TARGET = 10.5` (scale-up target). -/
def MIN_TRADE_VALUE_TARGET : ℚ := 21/2

/-- Constant `MIN_TRADE_VALUE_REQUIRED = 10.0` (exchange minimum notional). -/
def MIN_TRADE_VALUE_REQUIRED : ℚ := 10

/-- The sell-path size computation of `place_copy_order`
(copy_trade.py lines 359-432): initial scale-up to the $10.50 target,
instrument rounding, post-rounding re-scale (twice), cap at the caller's
own absolute position size, and the final pre-order re-scale.
`copy_size0 = |size_diff| * copy_percentage`; `price = 0` means the mid
price was unavailable; `myPos` is the caller's signed position size. -/
def sellPathSize (coin : String) (copy_size0 price myPos : ℚ) : ℚ :=
  let prec := coinPrecision coin
  let s1 := if 0 < price ∧ copy_size0 * price < MIN_TRADE_VALUE_TARGET
            then MIN_TRADE_VALUE_TARGET / price
            else copy_size0
  let s2 := pyRound s1 prec
  let s3 := if 0 < price ∧ s2 * price < MIN_TRADE_VALUE_REQUIRED then
              let r := pyRound (MIN_TRADE_VALUE_TARGET / price) prec
              if r * price < MIN_TRADE_VALUE_REQUIRED
              then pyRound (MIN_TRADE_VALUE_TARGET / price) prec
              else r
            else s2
  let s4 := if |myPos| < s3 then |myPos| else s3
  if 0 < price ∧ s4 * price < MIN_TRADE_VALUE_REQUIRED
  then pyRound (MIN_TRADE_VALUE_TARGET / price) prec
  else s4

/-- The buy-path size as it stands after the rounding/correction block
(copy_trade.py lines 498-542), i.e. the value of `copy_size` at line 569
where `trade_value` for the isolated-margin computation is taken. -/
def buyPathSize1 (coin : String) (copy_size0 price : ℚ) : ℚ :=
  let prec := coinPrecision coin
  let s1 := if 0 < price ∧ copy_size0 * price < MIN_TRADE_VALUE_TARGET
            then MIN_TRADE_VALUE_TARGET / price
            else copy_size0
  let s2 := pyRound s1 prec
  if 0 < price ∧ s2 * price < MIN_TRADE_VALUE_REQUIRED then
    let r := pyRound (MIN_TRADE_VALUE_TARGET / price) prec
    if r * price < MIN_TRADE_VALUE_REQUIRED
    then pyRound (MIN_TRADE_VALUE_TARGET / price) prec
    else r
  else s2

/-- The buy-path size actually submitted to `market_open`
(after the final pre-order check, copy_trade.py lines 605-618). -/
def buyPathFinalSize (coin : String) (copy_size0 price : ℚ) : ℚ :=
  let s := buyPathSize1 coin copy_size0 price
  if 0 < price ∧ s * price < MIN_TRADE_VALUE_REQUIRED
  then pyRound (MIN_TRADE_VALUE_TARGET / price) (coinPrecision coin)
  else s

/-- Externally visible effects of one reconciliation action. -/
inductive Event where
  | orderOpen (coin : String) (isBuy : Bool) (sz : ℚ)
  | orderClose (coin : String) (sz : Option ℚ)
  | setLev (coin : String) (lev : ℚ) (ok : Bool)
  | addMargin (coin : String) (amount : ℚ) (ok : Bool)
  | notifyClosed (coin : String)
  deriving DecidableEq, Repr

/-- The coin an event concerns. -/
def Event.coin : Event → String
  | .orderOpen c _ _ => c
  | .orderClose c _ => c
  | .setLev c _ _ => c
  | .addMargin c _ _ => c
  | .notifyClosed c => c

/-- Model of `CopyTrader.place_copy_order(coin, current_size, prev_size)`
(copy_trade.py lines 329-697), as the list of external events it emits.

* the noise-floor check `|size_diff| < 0.0001` returns with no event;
* a sell-direction change with no held position (`|myPos coin| < 0.001`)
  is skipped;
* a sell otherwise emits one `market_close` with the `sellPathSize`;
* a buy emits (when `useIsolated`) a leverage-set call, then (when the
  price is known and the trade value positive) a margin-fund call of
  `round(trade_value / maxLev * 1.1, 6)`, then always the `market_open`
  with the `buyPathFinalSize`.  `levOk`/`marginOk` model the outcomes of
  the leverage/margin calls, whose failure is only logged. -/
def placeCopyOrder (useIsolated : Bool) (maxLev : ℚ) (levOk marginOk : Bool)
    (copyPct : ℚ) (myPos : String → ℚ) (priceOf : String → ℚ)
    (coin : String) (current_size prev_size : ℚ) : List Event :=
  let size_diff := current_size - prev_size
  if |size_diff| < 1/10000 then []
  else
    let copy_size0 := |size_diff| * copyPct
    if ¬ (0 < size_diff) then
      let my := myPos coin
      if |my| < 1/1000 then []
      else [Event.orderClose coin (some (sellPathSize coin copy_size0 (priceOf coin) my))]
    else
      let price := priceOf coin
      let trade_value := buyPathSize1 coin copy_size0 price * price
      (if useIsolated then
        [Event.setLev coin maxLev levOk] ++
        (if 0 < price ∧ 0 < trade_value
         then [Event.addMargin coin (pyRound (trade_value / maxLev * (11/10)) 6) marginOk]
         else [])
       else []) ++
      [Event.orderOpen coin true (buyPathFinalSize coin copy_size0 price)]

/-- Model of `CopyTrader.adjust_copy_percentage` (copy_trade.py lines 217-244): when
both account values are positive the copy percentage becomes
`min(my_value / target_value, 1.0)`; otherwise it is left unchanged
(only a warning is logged). -/
def adjust_copy_percentage (my_value target_value current : ℚ) : ℚ :=
  if 0 < my_value ∧ 0 < target_value then min (my_value / target_value) 1
  else current

/-- The copy-percentage computation of `CopyTrader.__init__`
(copy_trade.py lines 139-163): auto-calculation uses
`(my_value / target_value) * position_size_multiplier` when both values are
positive, falling back to `0.01 * multiplier`; a manual percentage is
multiplied by the multiplier; otherwise the `0.01 * multiplier` default. -/
def initial_copy_percentage (auto_calculate : Bool) (copy_percentage : Option ℚ)
    (mult my_value target_value : ℚ) : ℚ :=
  if auto_calculate ∧ copy_percentage = none then
    if 0 < my_value ∧ 0 < target_value then (my_value / target_value) * mult
    else (1/100) * mult
  else
    match copy_percentage with
    | some cp => cp * mult
    | none => (1/100) * mult

/-- The `allowed_coins` filter used in `monitor_positions`
(copy_trade.py lines 717, 738): `none` allows every coin. -/
def allowedOk : Option (List String) → String → Bool
  | none, _ => true
  | some l, c => l.contains c

/-- First pass of `CopyTrader.monitor_positions`
(copy_trade.py lines 715-733): for each coin of the current target
snapshot passing the `allowed_coins` filter, compare with the previous
snapshot (`0` when absent), skip existing positions on the very first
check unless `copy_existing` is set, and call `place_copy_order` when the
size changed by more than `0.01`. -/
def pass1Entry (useIsolated : Bool) (maxLev : ℚ) (levOk marginOk : Bool)
    (allowed : Option (List String)) (copyExisting : Bool) (copyPct : ℚ)
    (lastPositions : List (String × ℚ))
    (myPos : String → ℚ) (priceOf : String → ℚ) (cp : String × ℚ) : List Event :=
  let coin := cp.1
  if allowedOk allowed coin then
    let current_size := cp.2
    let prev_size := (lastPositions.lookup coin).getD 0
    if lastPositions.isEmpty ∧ ¬ copyExisting then []
    else if 1/100 < |current_size - prev_size| then
      placeCopyOrder useIsolated maxLev levOk marginOk copyPct myPos priceOf
        coin current_size prev_size
    else []
  else []

/-- First pass of `CopyTrader.monitor_positions`, over the whole current
snapshot. -/
def pass1 (useIsolated : Bool) (maxLev : ℚ) (levOk marginOk : Bool)
    (allowed : Option (List String)) (copyExisting : Bool) (copyPct : ℚ)
    (lastPositions currentPositions : List (String × ℚ))
    (myPos : String → ℚ) (priceOf : String → ℚ) : List Event :=
  currentPositions.flatMap
    (pass1Entry useIsolated maxLev levOk marginOk allowed copyExisting copyPct
      lastPositions myPos priceOf)

/-- Second pass of `CopyTrader.monitor_positions`
(copy_trade.py lines 736-821): for each coin of the previous snapshot
passing the filter, a coin absent from the current snapshot triggers a
`PositionClosed` notification and a full `market_close` when the caller
holds a position (`|my| > 0.001`); a coin still present whose size moved
by more than `0.01` against the sign of the previous size triggers a
proportional `market_close` of `round(|size_diff| * copyPct, precision)`
when the caller holds a position and the rounded amount exceeds `0.001`. -/
def pass2Entry (allowed : Option (List String)) (copyPct : ℚ)
    (currentPositions : List (String × ℚ))
    (myPos : String → ℚ) (lp : String × ℚ) : List Event :=
  let coin := lp.1
  if allowedOk allowed coin then
    let prev_size := lp.2
    match currentPositions.lookup coin with
    | none =>
        if 1/1000 < |myPos coin| then
          [Event.notifyClosed coin, Event.orderClose coin none]
        else []
    | some current_size =>
        let size_diff := current_size - prev_size
        if 1/100 < |size_diff| ∧
           ((size_diff < 0 ∧ 0 < prev_size) ∨ (0 < size_diff ∧ prev_size < 0)) then
          if 1/1000 < |myPos coin| then
            let close_amount := pyRound (|size_diff| * copyPct) (coinPrecision coin)
            if 1/1000 < |close_amount| then
              [Event.orderClose coin (some close_amount)]
            else []
          else []
        else []
  else []

/-- Second pass of `CopyTrader.monitor_positions`, over the whole previous
snapshot. -/
def pass2 (allowed : Option (List String)) (copyPct : ℚ)
    (lastPositions currentPositions : List (String × ℚ))
    (myPos : String → ℚ) : List Event :=
  lastPositions.flatMap (pass2Entry allowed copyPct currentPositions myPos)

/-- Result of one reconciliation cycle: the emitted events and the new
`last_positions` snapshot. -/
structure CycleOut where
  events : List Event
  newLast : List (String × ℚ)
  deriving DecidableEq, Repr

/-- Model of `CopyTrader.monitor_positions` (copy_trade.py lines 699-824): both
passes in order, then `last_positions` is replaced by the current
snapshot.  The copy percentage is held fixed within the cycle (the
post-fill recalculation is modelled as leaving it unchanged). -/
def monitorStep (useIsolated : Bool) (maxLev : ℚ) (levOk marginOk : Bool)
    (allowed : Option (List String)) (copyExisting : Bool) (copyPct : ℚ)
    (lastPositions currentPositions : List (String × ℚ))
    (myPos : String → ℚ) (priceOf : String → ℚ) : CycleOut :=
  { events := pass1 useIsolated maxLev levOk marginOk allowed copyExisting copyPct
        lastPositions currentPositions myPos priceOf ++
      pass2 allowed copyPct lastPositions currentPositions myPos
    newLast := currentPositions }

/-- Constant `max_consecutive_errors = 5` (copy_trade.py line 863). -/
def max_consecutive_errors : ℕ := 5

/-- Final state of the monitoring loop of `CopyTrader.start_monitoring`
over a finite schedule of cycle outcomes. -/
structure LoopState where
  consecutiveErrors : ℕ
  terminated : Bool
  shutdownNotifs : ℕ
  deriving DecidableEq, Repr

/-- The monitoring loop of `CopyTrader.start_monitoring`
(copy_trade.py lines 862-889) driven by a finite list of cycle outcomes
(`true` = `monitor_positions` succeeded, `false` = it raised).  A success
resets `consecutive_errors` to `0`; a failure increments it, and when the
counter reaches `max_consecutive_errors` the inner `raise` reaches the
outer handler, which sends exactly one shutdown notification and
re-raises (loop terminated). -/
def runLoop (consec : ℕ) : List Bool → LoopState
  | [] => ⟨consec, false, 0⟩
  | ok :: rest =>
      if ok then runLoop 0 rest
      else
        let c := consec + 1
        if max_consecutive_errors ≤ c then ⟨c, true, 1⟩
        else runLoop c rest

/-- Predicate picking out close orders (full or sized) for a given coin. -/
def isCloseFor (coin : String) : Event → Bool
  | .orderClose c _ => c == coin
  | _ => false

/-! ## Helper lemmas -/

theorem lookup_cons_eq_if (k : String) (x : String × ℚ) (l : List (String × ℚ)) :
    (x :: l).lookup k = if k = x.1 then some x.2 else l.lookup k := by
  rcases x with ⟨a, b⟩
  simp only [List.lookup]
  rcases eq_or_ne k a with h | h
  · simp [h]
  · have hne : (k == a) = false := by simpa using h
    simp [hne, h]

theorem lookup_eq_none_of_not_mem (k : String) (l : List (String × ℚ))
    (h : k ∉ l.map Prod.fst) : l.lookup k = none := by
  induction l with
  | nil => simp
  | cons x rest ih =>
    rcases x with ⟨a, b⟩
    simp only [List.map_cons, List.mem_cons] at h
    push_neg at h
    simp only [List.lookup]
    have hne : (k == a) = false := by simpa using h.1
    simp [hne, ih h.2]

theorem not_mem_of_lookup_eq_none (k : String) (l : List (String × ℚ))
    (h : l.lookup k = none) : k ∉ l.map Prod.fst := by
  induction l with
  | nil => simp
  | cons x rest ih =>
    rcases x with ⟨a, b⟩
    rw [lookup_cons_eq_if] at h
    rcases eq_or_ne k a with hk | hk
    · simp [hk] at h
    · simp only [if_neg (by simpa using hk)] at h
      simp [hk, ih h]

theorem isEmpty_eq_false_of_lookup (k : String) (v : ℚ) (l : List (String × ℚ))
    (h : l.lookup k = some v) : l.isEmpty = false := by
  cases l with
  | nil => simp at h
  | cons x rest => simp

theorem countP_flatMap_zero (f : String × ℚ → List Event) (p : Event → Bool)
    (l : List (String × ℚ)) (h : ∀ x ∈ l, (f x).countP p = 0) :
    (l.flatMap f).countP p = 0 := by
  induction l with
  | nil => simp
  | cons x rest ih =>
    simp only [List.flatMap_cons, List.countP_append]
    rw [h x (List.mem_cons_self x rest), ih (fun y hy => h y (List.mem_cons_of_mem x hy))]

theorem countP_flatMap_lookup (f : String × ℚ → List Event) (p : Event → Bool)
    (l : List (String × ℚ)) (coin : String) (v : ℚ)
    (hnd : (l.map Prod.fst).Nodup) (hlk : l.lookup coin = some v)
    (hother : ∀ x ∈ l, x.1 ≠ coin → (f x).countP p = 0) :
    (l.flatMap f).countP p = (f (coin, v)).countP p := by
  induction l with
  | nil => simp at hlk
  | cons x rest ih =>
    rcases x with ⟨a, b⟩
    simp only [List.flatMap_cons, List.countP_append]
    rw [lookup_cons_eq_if] at hlk
    rcases eq_or_ne coin a with hk | hk
    · simp only [if_pos hk] at hlk
      obtain rfl : b = v := by simpa using hlk
      subst hk
      have hrest : (rest.flatMap f).countP p = 0 := by
        apply countP_flatMap_zero
        intro y hy
        apply hother y (List.mem_cons_of_mem _ hy)
        intro hcontr
        have : coin ∈ rest.map Prod.fst := by
          exact List.mem_map.mpr ⟨y, hy, hcontr⟩
        simp only [List.map_cons, List.nodup_cons] at hnd
        exact hnd.1 this
      rw [hrest]
      simp
    · simp only [if_neg hk] at hlk
      have ha : ((a, b) : String × ℚ).1 ≠ coin := fun h => hk (h.symm)
      rw [hother (a, b) (List.mem_cons_self _ _) ha]
      simp only [List.map_cons, List.nodup_cons] at hnd
      rw [ih hnd.2 hlk (fun y hy hne => hother y (List.mem_cons_of_mem _ hy) hne)]
      simp

theorem countP_coin_zero (L : List Event) (c coin : String) (q : Event → Bool)
    (hq : ∀ e, q e = true → Event.coin e = coin)
    (hL : ∀ e ∈ L, Event.coin e = c) (hne : c ≠ coin) : L.countP q = 0 := by
  apply List.countP_eq_zero.mpr
  intro e he hqe
  exact hne (((hL e he).symm).trans (hq e hqe))

theorem preScale_ge (coin : String) (p s : ℚ) (hp : 0 < p)
    (hr : MIN_TRADE_VALUE_REQUIRED ≤
      pyRound (MIN_TRADE_VALUE_TARGET / p) (coinPrecision coin) * p) :
    MIN_TRADE_VALUE_REQUIRED ≤
      (if 0 < p ∧ s * p < MIN_TRADE_VALUE_REQUIRED
       then pyRound (MIN_TRADE_VALUE_TARGET / p) (coinPrecision coin) else s) * p := by
  split_ifs with h
  · exact hr
  · rw [not_and] at h
    exact le_of_not_lt (h hp)

theorem sellPathSize_ge (coin : String) (s0 p my : ℚ) (hp : 0 < p)
    (hr : MIN_TRADE_VALUE_REQUIRED ≤
      pyRound (MIN_TRADE_VALUE_TARGET / p) (coinPrecision coin) * p) :
    MIN_TRADE_VALUE_REQUIRED ≤ sellPathSize coin s0 p my * p := by
  unfold sellPathSize
  dsimp only
  exact preScale_ge coin p _ hp hr

theorem buyPathFinalSize_ge (coin : String) (s0 p : ℚ) (hp : 0 < p)
    (hr : MIN_TRADE_VALUE_REQUIRED ≤
      pyRound (MIN_TRADE_VALUE_TARGET / p) (coinPrecision coin) * p) :
    MIN_TRADE_VALUE_REQUIRED ≤ buyPathFinalSize coin s0 p * p := by
  unfold buyPathFinalSize
  dsimp only
  exact preScale_ge coin p _ hp hr

theorem placeCopyOrder_sell (useIsolated : Bool) (maxLev : ℚ) (levOk marginOk : Bool)
    (copyPct : ℚ) (myPos priceOf : String → ℚ) (coin : String) (cs ps : ℚ)
    (hd : 1/10000 ≤ |cs - ps|) (hneg : ¬ 0 < cs - ps)
    (hmy : ¬ |myPos coin| < 1/1000) :
    placeCopyOrder useIsolated maxLev levOk marginOk copyPct myPos priceOf coin cs ps =
      [Event.orderClose coin
        (some (sellPathSize coin (|cs - ps| * copyPct) (priceOf coin) (myPos coin)))] := by
  unfold placeCopyOrder
  dsimp only
  rw [if_neg (not_lt.mpr hd), if_pos hneg, if_neg hmy]

theorem placeCopyOrder_buy (useIsolated : Bool) (maxLev : ℚ) (levOk marginOk : Bool)
    (copyPct : ℚ) (myPos priceOf : String → ℚ) (coin : String) (cs ps : ℚ)
    (hd : 1/10000 ≤ |cs - ps|) (hbuy : 0 < cs - ps) :
    placeCopyOrder useIsolated maxLev levOk marginOk copyPct myPos priceOf coin cs ps =
      (if useIsolated then
        [Event.setLev coin maxLev levOk] ++
        (if 0 < priceOf coin ∧
            0 < buyPathSize1 coin (|cs - ps| * copyPct) (priceOf coin) * priceOf coin
         then [Event.addMargin coin
                (pyRound (buyPathSize1 coin (|cs - ps| * copyPct) (priceOf coin) *
                  priceOf coin / maxLev * (11/10)) 6) marginOk]
         else [])
       else []) ++
      [Event.orderOpen coin true (buyPathFinalSize coin (|cs - ps| * copyPct) (priceOf coin))] := by
  unfold placeCopyOrder
  dsimp only
  rw [if_neg (not_lt.mpr hd), if_neg (not_not_intro hbuy)]

theorem coin_of_mem_placeCopyOrder (useIsolated : Bool) (maxLev : ℚ)
    (levOk marginOk : Bool) (copyPct : ℚ) (myPos priceOf : String → ℚ)
    (coin : String) (cs ps : ℚ) (e : Event)
    (he : e ∈ placeCopyOrder useIsolated maxLev levOk marginOk copyPct myPos priceOf coin cs ps) :
    Event.coin e = coin := by
  unfold placeCopyOrder at he
  dsimp only at he
  split_ifs at he <;>
    simp only [List.mem_append, List.mem_singleton, List.mem_cons,
      List.not_mem_nil, or_false, false_or] at he <;>
    (rcases he with (rfl | rfl) | rfl <;> rfl)

theorem full_close_not_mem_placeCopyOrder (useIsolated : Bool) (maxLev : ℚ)
    (levOk marginOk : Bool) (copyPct : ℚ) (myPos priceOf : String → ℚ)
    (coin c : String) (cs ps : ℚ) :
    Event.orderClose c none ∉
      placeCopyOrder useIsolated maxLev levOk marginOk copyPct myPos priceOf coin cs ps := by
  intro he
  unfold placeCopyOrder at he
  dsimp only at he
  split_ifs at he <;> simp_all

theorem mem_pass1Entry (useIsolated : Bool) (maxLev : ℚ) (levOk marginOk : Bool)
    (allowed : Option (List String)) (copyExisting : Bool) (copyPct : ℚ)
    (lastPositions : List (String × ℚ)) (myPos priceOf : String → ℚ)
    (cp : String × ℚ) (e : Event)
    (he : e ∈ pass1Entry useIsolated maxLev levOk marginOk allowed copyExisting copyPct
      lastPositions myPos priceOf cp) :
    e ∈ placeCopyOrder useIsolated maxLev levOk marginOk copyPct myPos priceOf
      cp.1 cp.2 ((lastPositions.lookup cp.1).getD 0) ∧
    allowedOk allowed cp.1 = true := by
  unfold pass1Entry at he
  dsimp only at he
  split_ifs at he with h1 h2 h3 <;> simp_all

theorem coin_of_mem_pass2Entry (allowed : Option (List String)) (copyPct : ℚ)
    (currentPositions : List (String × ℚ)) (myPos : String → ℚ)
    (lp : String × ℚ) (e : Event)
    (he : e ∈ pass2Entry allowed copyPct currentPositions myPos lp) :
    Event.coin e = lp.1 ∧ allowedOk allowed lp.1 = true := by
  unfold pass2Entry at he
  dsimp only at he
  by_cases h1 : allowedOk allowed lp.1 = true
  · rw [if_pos h1] at he
    rcases hlk : currentPositions.lookup lp.1 with _ | current_size <;>
      rw [hlk] at he <;> dsimp only at he <;>
      split_ifs at he <;>
      first
        | (simp only [List.mem_cons, List.mem_singleton, List.not_mem_nil,
             or_false] at he
           rcases he with rfl | rfl <;> exact ⟨rfl, h1⟩)
        | simp at he
  · rw [if_neg h1] at he
    simp at he

theorem pass1Entry_eq (useIsolated : Bool) (maxLev : ℚ) (levOk marginOk : Bool)
    (allowed : Option (List String)) (copyExisting : Bool) (copyPct : ℚ)
    (lastPositions : List (String × ℚ)) (myPos priceOf : String → ℚ)
    (cp : String × ℚ)
    (ha : allowedOk allowed cp.1 = true)
    (hne : ¬ (lastPositions.isEmpty ∧ ¬ copyExisting))
    (hch : 1/100 < |cp.2 - (lastPositions.lookup cp.1).getD 0|) :
    pass1Entry useIsolated maxLev levOk marginOk allowed copyExisting copyPct
      lastPositions myPos priceOf cp =
    placeCopyOrder useIsolated maxLev levOk marginOk copyPct myPos priceOf
      cp.1 cp.2 ((lastPositions.lookup cp.1).getD 0) := by
  unfold pass1Entry
  dsimp only
  rw [if_pos ha, if_neg hne, if_pos hch]

theorem pass2Entry_full_close (allowed : Option (List String)) (copyPct : ℚ)
    (currentPositions : List (String × ℚ)) (myPos : String → ℚ)
    (lp : String × ℚ)
    (ha : allowedOk allowed lp.1 = true)
    (hlk : currentPositions.lookup lp.1 = none)
    (hmy : 1/1000 < |myPos lp.1|) :
    pass2Entry allowed copyPct currentPositions myPos lp =
      [Event.notifyClosed lp.1, Event.orderClose lp.1 none] := by
  unfold pass2Entry
  dsimp only
  rw [if_pos ha, hlk]
  dsimp only
  rw [if_pos hmy]

theorem pass2Entry_reduce (allowed : Option (List String)) (copyPct : ℚ)
    (currentPositions : List (String × ℚ)) (myPos : String → ℚ)
    (lp : String × ℚ) (current_size : ℚ)
    (ha : allowedOk allowed lp.1 = true)
    (hlk : currentPositions.lookup lp.1 = some current_size)
    (hcond : 1/100 < |current_size - lp.2| ∧
      ((current_size - lp.2 < 0 ∧ 0 < lp.2) ∨ (0 < current_size - lp.2 ∧ lp.2 < 0)))
    (hmy : 1/1000 < |myPos lp.1|)
    (hca : 1/1000 < |pyRound (|current_size - lp.2| * copyPct) (coinPrecision lp.1)|) :
    pass2Entry allowed copyPct currentPositions myPos lp =
      [Event.orderClose lp.1
        (some (pyRound (|current_size - lp.2| * copyPct) (coinPrecision lp.1)))] := by
  unfold pass2Entry
  dsimp only
  rw [if_pos ha, hlk]
  dsimp only
  rw [if_pos hcond, if_pos hmy, if_pos hca]

theorem coinPrecision_BNB : coinPrecision "BNB" = 2 := rfl

theorem coinPrecision_ETH : coinPrecision "ETH" = 4 := rfl

theorem coinPrecision_SOL : coinPrecision "SOL" = 2 := rfl

theorem coinPrecision_BTC : coinPrecision "BTC" = 4 := rfl

/-! ## Claims -/

/-- C1 counterexample: a buy order for a generic 2-decimal coin at mid
price $800 (scaled from a small delta) is submitted with final size
`0.01`, whose notional `0.01 × 800 = $8` is below the required $10
minimum, even though the price is known and nonzero and all three
correction rounds ran. -/
theorem C1_counterexample :
    placeCopyOrder false 10 true true 1 (fun _ => 0) (fun _ => 800) "BNB" (1/1000) 0 =
      [Event.orderOpen "BNB" true (1/100)] ∧
    (0 : ℚ) < 800 ∧
    ¬ MIN_TRADE_VALUE_REQUIRED ≤ (1/100 : ℚ) * 800 := by
  refine ⟨?_, by norm_num, by norm_num [MIN_TRADE_VALUE_REQUIRED]⟩
  rw [placeCopyOrder_buy _ _ _ _ _ _ _ _ _ _ (by norm_num [abs_of_pos]) (by norm_num)]
  have harg : |(1:ℚ)/1000 - 0| * 1 = 1/1000 := by norm_num
  rw [harg]
  norm_num [buyPathFinalSize, buyPathSize1, pyRound, roundHalfEven, coinPrecision_BNB,
    MIN_TRADE_VALUE_TARGET, MIN_TRADE_VALUE_REQUIRED]

/-- C2 code-bug evaluation: in the spec's own scenario (target reduces
ETH by 1.0, copy ratio 0.002, own ETH position 0.003, price $3000) the
final pre-order minimum-notional check re-scales the close size from the
capped 0.003 back up to 0.0035, so the submitted close exceeds the
caller's held size; and with an unknown price a close order of size 0 is
emitted after rounding. -/
theorem C2_theorem :
    (placeCopyOrder false 10 true true (2/1000) (fun _ => 3/1000) (fun _ => 3000) "ETH" 1 2 =
        [Event.orderClose "ETH" (some (7/2000))] ∧
      |(3 : ℚ)/1000| < 7/2000) ∧
    (placeCopyOrder false 10 true true 1 (fun _ => 5) (fun _ => 0) "SOL" 0 (4/1000) =
        [Event.orderClose "SOL" (some 0)]) := by
  refine ⟨⟨?_, by norm_num [abs_of_pos]⟩, ?_⟩
  · rw [placeCopyOrder_sell _ _ _ _ _ _ _ _ _ _ (by norm_num [abs_of_neg]) (by norm_num)
      (by norm_num [abs_of_pos])]
    have harg : |(1:ℚ) - 2| * (2/1000) = 2/1000 := by norm_num
    rw [harg]
    norm_num [sellPathSize, pyRound, roundHalfEven, coinPrecision_ETH,
      MIN_TRADE_VALUE_TARGET, MIN_TRADE_VALUE_REQUIRED, abs_of_pos]
  · rw [placeCopyOrder_sell _ _ _ _ _ _ _ _ _ _ (by norm_num [abs_of_neg]) (by norm_num)
      (by norm_num [abs_of_pos])]
    have harg : |(0:ℚ) - 4/1000| * 1 = 4/1000 := by norm_num
    rw [harg]
    norm_num [sellPathSize, pyRound, roundHalfEven, coinPrecision_SOL,
      MIN_TRADE_VALUE_TARGET, MIN_TRADE_VALUE_REQUIRED, abs_of_pos]

/-- C3 counterexample: with own value 2, target value 1 and position-size
multiplier 2, the recomputed copy percentage is `min(2/1, 1) = 1`, not
`min(2/1, 1) × 2 = 2`: the multiplier is not applied in the
recomputation. -/
theorem C3_counterexample :
    adjust_copy_percentage 2 1 (1/20) = 1 ∧
    ¬ adjust_copy_percentage 2 1 (1/20) = min ((2 : ℚ)/1) 1 * 2 := by
  constructor <;> norm_num [adjust_copy_percentage]

/-- C4 counterexample: the target opens a short (previous size 0, current
size -1) while the caller holds nothing; the code skips the order
entirely, whereas the claim says a delta opening a short always proceeds
to an order. -/
theorem C4_counterexample :
    placeCopyOrder false 10 true true 1 (fun _ => 0) (fun _ => 100) "SOL" (-1) 0 = [] := by
  norm_num [placeCopyOrder]

/-- C1 (amended): whenever the mid price is known and nonzero and the
price is low enough that rounding `MIN_TRADE_VALUE_TARGET / price` at the
instrument precision does not itself drop the notional below the minimum
(`pyRound (10.5/price) prec × price ≥ 10`), every order submitted by
`place_copy_order` has notional at least `MIN_TRADE_VALUE_REQUIRED`
($10), reached by the correction rounds; and the engine scales up rather
than dropping: a buy delta always yields its market-open order, a sell
delta with a held position always yields its market-close order. -/
theorem C1_theorem (useIsolated : Bool) (maxLev : ℚ) (levOk marginOk : Bool)
    (copyPct : ℚ) (myPos priceOf : String → ℚ) (coin : String) (cs ps : ℚ)
    (hp : 0 < priceOf coin)
    (hr : MIN_TRADE_VALUE_REQUIRED ≤
      pyRound (MIN_TRADE_VALUE_TARGET / priceOf coin) (coinPrecision coin) * priceOf coin) :
    (∀ b s, Event.orderOpen coin b s ∈
        placeCopyOrder useIsolated maxLev levOk marginOk copyPct myPos priceOf coin cs ps →
      MIN_TRADE_VALUE_REQUIRED ≤ s * priceOf coin) ∧
    (∀ s, Event.orderClose coin (some s) ∈
        placeCopyOrder useIsolated maxLev levOk marginOk copyPct myPos priceOf coin cs ps →
      MIN_TRADE_VALUE_REQUIRED ≤ s * priceOf coin) ∧
    (1/10000 ≤ |cs - ps| → 0 < cs - ps →
      Event.orderOpen coin true (buyPathFinalSize coin (|cs - ps| * copyPct) (priceOf coin)) ∈
        placeCopyOrder useIsolated maxLev levOk marginOk copyPct myPos priceOf coin cs ps) ∧
    (1/10000 ≤ |cs - ps| → cs - ps < 0 → ¬ |myPos coin| < 1/1000 →
      Event.orderClose coin
          (some (sellPathSize coin (|cs - ps| * copyPct) (priceOf coin) (myPos coin))) ∈
        placeCopyOrder useIsolated maxLev levOk marginOk copyPct myPos priceOf coin cs ps) := by
  refine ⟨?_, ?_, ?_, ?_⟩
  · intro b s hmem
    unfold placeCopyOrder at hmem
    dsimp only at hmem
    split_ifs at hmem <;> simp at hmem
    all_goals obtain ⟨rfl, rfl⟩ := hmem
    all_goals exact buyPathFinalSize_ge coin _ _ hp hr
  · intro s hmem
    unfold placeCopyOrder at hmem
    dsimp only at hmem
    split_ifs at hmem <;> simp at hmem
    all_goals subst hmem
    all_goals exact sellPathSize_ge coin _ _ _ hp hr
  · intro hd hbuy
    rw [placeCopyOrder_buy _ _ _ _ _ _ _ _ _ _ hd hbuy]
    simp
  · intro hd hneg hmy
    rw [placeCopyOrder_sell _ _ _ _ _ _ _ _ _ _ hd (lt_asymm hneg) hmy]
    simp

/-- C1 witness: at mid price $60,000 for BTC with copy ratio 0.01 and a
buy delta of 0.5, the theorem's hypotheses hold and the submitted size
satisfies the $10 minimum notional. -/
theorem C1_witness :
    MIN_TRADE_VALUE_REQUIRED ≤
      buyPathFinalSize "BTC" (|(1:ℚ)/2 - 0| * (1/100)) 60000 * 60000 := by
  have h := C1_theorem false 10 true true (1/100) (fun _ => 0) (fun _ => 60000) "BTC" (1/2) 0
    (by norm_num)
    (by norm_num [pyRound, roundHalfEven, MIN_TRADE_VALUE_TARGET,
      MIN_TRADE_VALUE_REQUIRED, coinPrecision_BTC])
  exact h.1 true _ (h.2.2.1 (by norm_num [abs_of_pos]) (by norm_num))

/-- C3 (amended): when both account values are positive, the recomputed
copy percentage equals `min(own/target, 1.0)` with no multiplier applied,
hence is at most 1.0; when either value is not positive the percentage is
left unchanged (no fallback is applied in the recomputation — the
`0.01 × multiplier` default exists only in the constructor). -/
theorem C3_theorem (my_value target_value current mult : ℚ) :
    (0 < my_value → 0 < target_value →
      adjust_copy_percentage my_value target_value current =
        min (my_value / target_value) 1 ∧
      adjust_copy_percentage my_value target_value current ≤ 1) ∧
    (¬ (0 < my_value ∧ 0 < target_value) →
      adjust_copy_percentage my_value target_value current = current) ∧
    (¬ (0 < my_value ∧ 0 < target_value) →
      initial_copy_percentage true none mult my_value target_value = (1/100) * mult) := by
  refine ⟨fun h1 h2 => ?_, fun h => ?_, fun h => ?_⟩
  · unfold adjust_copy_percentage
    rw [if_pos ⟨h1, h2⟩]
    exact ⟨rfl, min_le_right _ _⟩
  · unfold adjust_copy_percentage
    rw [if_neg h]
  · unfold initial_copy_percentage
    rw [if_pos ⟨rfl, rfl⟩, if_neg h]

/-- C3 witness: concrete instances of the amended statement at positive
values (3, 2) and at a non-positive own value (-1). -/
theorem C3_witness :
    (adjust_copy_percentage 3 2 (1/20) = min ((3:ℚ)/2) 1 ∧
      adjust_copy_percentage 3 2 (1/20) ≤ 1) ∧
    adjust_copy_percentage (-1) 1 (1/20) = 1/20 ∧
    initial_copy_percentage true none 2 (-1) 1 = (1/100) * 2 :=
  ⟨(C3_theorem 3 2 (1/20) 2).1 (by norm_num) (by norm_num),
   (C3_theorem (-1) 1 (1/20) 2).2.1 (by norm_num),
   (C3_theorem (-1) 1 (1/20) 2).2.2 (by norm_num)⟩

/-- C4 (amended): every sell-direction delta for which the caller holds
no position (`|own| < 0.001`) returns with no order — including deltas
that open or increase a short; buy-direction deltas above the noise floor
always proceed to a market-open order. -/
theorem C4_theorem (useIsolated : Bool) (maxLev : ℚ) (levOk marginOk : Bool)
    (copyPct : ℚ) (myPos priceOf : String → ℚ) (coin : String) (cs ps : ℚ) :
    (cs - ps < 0 → |myPos coin| < 1/1000 →
      placeCopyOrder useIsolated maxLev levOk marginOk copyPct myPos priceOf coin cs ps = []) ∧
    (1/10000 ≤ |cs - ps| → 0 < cs - ps →
      Event.orderOpen coin true (buyPathFinalSize coin (|cs - ps| * copyPct) (priceOf coin)) ∈
        placeCopyOrder useIsolated maxLev levOk marginOk copyPct myPos priceOf coin cs ps) := by
  constructor
  · intro hneg hmy
    unfold placeCopyOrder
    dsimp only
    by_cases h1 : |cs - ps| < 1/10000
    · rw [if_pos h1]
    · rw [if_neg h1, if_pos (lt_asymm hneg), if_pos hmy]
  · intro hd hbuy
    rw [placeCopyOrder_buy _ _ _ _ _ _ _ _ _ _ hd hbuy]
    simp

/-- C4 witness: a sell delta with no held position yields no order, and a
buy delta of 1 yields its market-open order. -/
theorem C4_witness :
    placeCopyOrder false 10 true true 1 (fun _ => 0) (fun _ => 100) "ETH" 0 1 = [] ∧
    Event.orderOpen "ETH" true (buyPathFinalSize "ETH" (|(1:ℚ) - 0| * 1) 100) ∈
      placeCopyOrder false 10 true true 1 (fun _ => 0) (fun _ => 100) "ETH" 1 0 :=
  ⟨(C4_theorem false 10 true true 1 (fun _ => 0) (fun _ => 100) "ETH" 0 1).1
      (by norm_num) (by norm_num),
   (C4_theorem false 10 true true 1 (fun _ => 0) (fun _ => 100) "ETH" 1 0).2
      (by norm_num [abs_of_pos]) (by norm_num)⟩

/-- C7: for every opening (buy) order placed with isolated-margin mode
active, a known positive mid price and a positive trade value, the event
sequence is exactly: set leverage, fund isolated margin with
`round((tradeValue / maxLeverage) × 1.1, 6)`, then submit the market-open
order — for every outcome (`levOk`, `marginOk`) of the two configuration
calls, so their failure never prevents the order submission. -/
theorem C7_theorem (maxLev : ℚ) (levOk marginOk : Bool)
    (copyPct : ℚ) (myPos priceOf : String → ℚ) (coin : String) (cs ps : ℚ)
    (hd : 1/10000 ≤ |cs - ps|) (hbuy : 0 < cs - ps)
    (hp : 0 < priceOf coin)
    (htv : 0 < buyPathSize1 coin (|cs - ps| * copyPct) (priceOf coin) * priceOf coin) :
    placeCopyOrder true maxLev levOk marginOk copyPct myPos priceOf coin cs ps =
      [Event.setLev coin maxLev levOk,
       Event.addMargin coin
         (pyRound (buyPathSize1 coin (|cs - ps| * copyPct) (priceOf coin) *
           priceOf coin / maxLev * (11/10)) 6) marginOk,
       Event.orderOpen coin true (buyPathFinalSize coin (|cs - ps| * copyPct) (priceOf coin))] := by
  rw [placeCopyOrder_buy _ _ _ _ _ _ _ _ _ _ hd hbuy]
  rw [if_pos rfl, if_pos ⟨hp, htv⟩]
  rfl

/-- C7 witness: BTC at $60,000, ratio 0.01, delta 0.5, with the margin
call failing: margin `round(300/10 × 1.1, 6) = 33` is applied before the
order, and the order is still submitted. -/
theorem C7_witness :
    placeCopyOrder true 10 true false (1/100) (fun _ => 0) (fun _ => 60000) "BTC" (1/2) 0 =
      [Event.setLev "BTC" 10 true,
       Event.addMargin "BTC" 33 false,
       Event.orderOpen "BTC" true (1/200)] := by
  have harg : |(1:ℚ)/2 - 0| * (1/100) = 1/200 := by
    norm_num [abs_of_pos]
  have hsz : buyPathSize1 "BTC" (1/200) 60000 = 1/200 := by
    norm_num [buyPathSize1, pyRound, roundHalfEven, coinPrecision_BTC,
      MIN_TRADE_VALUE_TARGET, MIN_TRADE_VALUE_REQUIRED]
  have h := C7_theorem 10 true false (1/100) (fun _ => 0) (fun _ => 60000) "BTC" (1/2) 0
    (by norm_num [abs_of_pos]) (by norm_num) (by norm_num)
    (by show (0:ℚ) < buyPathSize1 "BTC" (|(1:ℚ)/2 - 0| * (1/100)) 60000 * 60000
        rw [harg, hsz]
        norm_num)
  rw [h]
  show [Event.setLev "BTC" 10 true,
    Event.addMargin "BTC"
      (pyRound (buyPathSize1 "BTC" (|(1:ℚ)/2 - 0| * (1/100)) 60000 * 60000 / 10 * (11/10)) 6)
      false,
    Event.orderOpen "BTC" true (buyPathFinalSize "BTC" (|(1:ℚ)/2 - 0| * (1/100)) 60000)] = _
  rw [harg, hsz]
  norm_num [buyPathFinalSize, hsz, pyRound, roundHalfEven, coinPrecision_BTC,
    MIN_TRADE_VALUE_TARGET, MIN_TRADE_VALUE_REQUIRED]

/-- C8: every position delta of magnitude below 0.0001 makes
`place_copy_order` return immediately with no order and no other
effect. -/
theorem C8_theorem (useIsolated : Bool) (maxLev : ℚ) (levOk marginOk : Bool)
    (copyPct : ℚ) (myPos priceOf : String → ℚ) (coin : String) (cs ps : ℚ)
    (h : |cs - ps| < 1/10000) :
    placeCopyOrder useIsolated maxLev levOk marginOk copyPct myPos priceOf coin cs ps = [] := by
  unfold placeCopyOrder
  dsimp only
  rw [if_pos h]

/-- C8 witness: a zero delta produces no event. -/
theorem C8_witness :
    placeCopyOrder false 10 true true 1 (fun _ => 1) (fun _ => 100) "BTC" 5 5 = [] :=
  C8_theorem false 10 true true 1 (fun _ => 1) (fun _ => 100) "BTC" 5 5 (by norm_num)

theorem notify_not_mem_placeCopyOrder (useIsolated : Bool) (maxLev : ℚ)
    (levOk marginOk : Bool) (copyPct : ℚ) (myPos priceOf : String → ℚ)
    (coin c : String) (cs ps : ℚ) :
    Event.notifyClosed c ∉
      placeCopyOrder useIsolated maxLev levOk marginOk copyPct myPos priceOf coin cs ps := by
  intro he
  unfold placeCopyOrder at he
  dsimp only at he
  split_ifs at he <;> simp_all

theorem pass1_countP_full_close (useIsolated : Bool) (maxLev : ℚ) (levOk marginOk : Bool)
    (allowed : Option (List String)) (copyExisting : Bool) (copyPct : ℚ)
    (lastPositions currentPositions : List (String × ℚ))
    (myPos priceOf : String → ℚ) (coin : String) :
    (pass1 useIsolated maxLev levOk marginOk allowed copyExisting copyPct
        lastPositions currentPositions myPos priceOf).countP
      (· == Event.orderClose coin none) = 0 := by
  apply countP_flatMap_zero
  intro x hx
  apply List.countP_eq_zero.mpr
  intro e he hq
  obtain rfl := eq_of_beq hq
  exact full_close_not_mem_placeCopyOrder useIsolated maxLev levOk marginOk copyPct
    myPos priceOf x.1 coin x.2 ((lastPositions.lookup x.1).getD 0)
    (mem_pass1Entry useIsolated maxLev levOk marginOk allowed copyExisting copyPct
      lastPositions myPos priceOf x _ he).1

theorem pass1_countP_notify (useIsolated : Bool) (maxLev : ℚ) (levOk marginOk : Bool)
    (allowed : Option (List String)) (copyExisting : Bool) (copyPct : ℚ)
    (lastPositions currentPositions : List (String × ℚ))
    (myPos priceOf : String → ℚ) (coin : String) :
    (pass1 useIsolated maxLev levOk marginOk allowed copyExisting copyPct
        lastPositions currentPositions myPos priceOf).countP
      (· == Event.notifyClosed coin) = 0 := by
  apply countP_flatMap_zero
  intro x hx
  apply List.countP_eq_zero.mpr
  intro e he hq
  obtain rfl := eq_of_beq hq
  exact notify_not_mem_placeCopyOrder useIsolated maxLev levOk marginOk copyPct
    myPos priceOf x.1 coin x.2 ((lastPositions.lookup x.1).getD 0)
    (mem_pass1Entry useIsolated maxLev levOk marginOk allowed copyExisting copyPct
      lastPositions myPos priceOf x _ he).1

/-- C5 (amended): for every symbol present in the previous target
snapshot but absent from the current one, provided the symbol passes the
allowed-coins filter and the caller holds a position in it, the cycle
emits the `PositionClosed` notification exactly once and the full
`market_close` attempt exactly once; and in the following cycle (whose
previous snapshot is the current one, which no longer contains the
symbol), no further full-close for that symbol is emitted. -/
theorem C5_theorem (useIsolated : Bool) (maxLev : ℚ) (levOk marginOk : Bool)
    (allowed : Option (List String)) (copyExisting : Bool) (copyPct : ℚ)
    (lastPositions currentPositions : List (String × ℚ))
    (myPos priceOf : String → ℚ) (coin : String) (prev : ℚ)
    (hnd : (lastPositions.map Prod.fst).Nodup)
    (hin : lastPositions.lookup coin = some prev)
    (hout : currentPositions.lookup coin = none)
    (ha : allowedOk allowed coin = true)
    (hmy : 1/1000 < |myPos coin|) :
    (monitorStep useIsolated maxLev levOk marginOk allowed copyExisting copyPct
        lastPositions currentPositions myPos priceOf).events.countP
      (· == Event.orderClose coin none) = 1 ∧
    (monitorStep useIsolated maxLev levOk marginOk allowed copyExisting copyPct
        lastPositions currentPositions myPos priceOf).events.countP
      (· == Event.notifyClosed coin) = 1 ∧
    (∀ (levOk2 marginOk2 copyExisting2 : Bool) (copyPct2 : ℚ)
        (current2 : List (String × ℚ)) (myPos2 priceOf2 : String → ℚ),
      (monitorStep useIsolated maxLev levOk2 marginOk2 allowed copyExisting2 copyPct2
          currentPositions current2 myPos2 priceOf2).events.countP
        (· == Event.orderClose coin none) = 0) := by
  have hq1 : ∀ e : Event, (e == Event.orderClose coin none) = true → Event.coin e = coin := by
    intro e h
    obtain rfl := eq_of_beq h
    rfl
  have hq2 : ∀ e : Event, (e == Event.notifyClosed coin) = true → Event.coin e = coin := by
    intro e h
    obtain rfl := eq_of_beq h
    rfl
  have hother : ∀ (q : Event → Bool), (∀ e, q e = true → Event.coin e = coin) →
      ∀ x ∈ lastPositions, x.1 ≠ coin →
        (pass2Entry allowed copyPct currentPositions myPos x).countP q = 0 := by
    intro q hq x hx hne
    exact countP_coin_zero _ x.1 coin q hq
      (fun e he => (coin_of_mem_pass2Entry allowed copyPct currentPositions myPos x e he).1)
      hne
  have hfull : pass2Entry allowed copyPct currentPositions myPos (coin, prev) =
      [Event.notifyClosed coin, Event.orderClose coin none] :=
    pass2Entry_full_close allowed copyPct currentPositions myPos (coin, prev) ha hout hmy
  refine ⟨?_, ?_, ?_⟩
  · show (pass1 useIsolated maxLev levOk marginOk allowed copyExisting copyPct
        lastPositions currentPositions myPos priceOf ++
      pass2 allowed copyPct lastPositions currentPositions myPos).countP _ = 1
    unfold pass2
    rw [List.countP_append, pass1_countP_full_close]
    rw [countP_flatMap_lookup _ _ lastPositions coin prev hnd hin (hother _ hq1), hfull]
    simp
  · show (pass1 useIsolated maxLev levOk marginOk allowed copyExisting copyPct
        lastPositions currentPositions myPos priceOf ++
      pass2 allowed copyPct lastPositions currentPositions myPos).countP _ = 1
    unfold pass2
    rw [List.countP_append, pass1_countP_notify]
    rw [countP_flatMap_lookup _ _ lastPositions coin prev hnd hin (hother _ hq2), hfull]
    simp
  · intro levOk2 marginOk2 copyExisting2 copyPct2 current2 myPos2 priceOf2
    show (pass1 useIsolated maxLev levOk2 marginOk2 allowed copyExisting2 copyPct2
        currentPositions current2 myPos2 priceOf2 ++
      pass2 allowed copyPct2 currentPositions current2 myPos2).countP _ = 0
    unfold pass2
    rw [List.countP_append, pass1_countP_full_close]
    have hnotin := not_mem_of_lookup_eq_none coin currentPositions hout
    rw [countP_flatMap_zero]
    intro x hx
    apply countP_coin_zero _ x.1 coin _ hq1
      (fun e he => (coin_of_mem_pass2Entry allowed copyPct2 current2 myPos2 x e he).1)
    intro hcontr
    exact hnotin (hcontr ▸ List.mem_map_of_mem Prod.fst hx)

/-- C5 witness: SOL present in the previous snapshot (size 5) and absent
from the current one, with a local position of 5.2 and no coin filter:
exactly one full close and one notification in the transition cycle, and
none in the next cycle. -/
theorem C5_witness :
    (monitorStep false 10 true true none false (1/100)
        [("SOL", 5)] [] (fun _ => 26/5) (fun _ => 0)).events.countP
      (· == Event.orderClose "SOL" none) = 1 ∧
    (monitorStep false 10 true true none false (1/100)
        [("SOL", 5)] [] (fun _ => 26/5) (fun _ => 0)).events.countP
      (· == Event.notifyClosed "SOL") = 1 ∧
    (monitorStep false 10 true true none false (1/100)
        [] [("BTC", 1)] (fun _ => 26/5) (fun _ => 0)).events.countP
      (· == Event.orderClose "SOL" none) = 0 := by
  have h := C5_theorem false 10 true true none false (1/100)
    [("SOL", 5)] [] (fun _ => 26/5) (fun _ => 0) "SOL" 5
    (by simp) (by rfl) (by rfl) (by rfl) (by norm_num [abs_of_pos])
  exact ⟨h.1, h.2.1, h.2.2 true true false (1/100) [("BTC", 1)] (fun _ => 26/5) (fun _ => 0)⟩

/-- C5 counterexample: with a configured allowed-coins list not
containing SOL, a SOL full-close transition with a held local position of
5.2 triggers no close attempt at all (zero times, where the claim demands
exactly once). -/
theorem C5_counterexample :
    (monitorStep false 10 true true (some ["BTC"]) false (1/100)
        [("SOL", 5)] [] (fun _ => 26/5) (fun _ => 0)).events = [] := by
  rfl

/-- C6: in the monitoring loop, a successful cycle resets the
consecutive-error counter to zero, a failed cycle increments it, and when
the counter reaches `max_consecutive_errors = 5` the loop terminates
fatally with exactly one shutdown notification; in particular five
consecutive failures from a fresh counter always terminate the loop this
way, and every terminated run has emitted exactly one shutdown
notification. -/
theorem C6_theorem :
    (∀ (c : ℕ) (rest : List Bool), runLoop c (true :: rest) = runLoop 0 rest) ∧
    (∀ (c : ℕ) (rest : List Bool), c + 1 < max_consecutive_errors →
      runLoop c (false :: rest) = runLoop (c + 1) rest) ∧
    (∀ (c : ℕ) (rest : List Bool), max_consecutive_errors ≤ c + 1 →
      runLoop c (false :: rest) = ⟨c + 1, true, 1⟩) ∧
    (∀ rest : List Bool,
      runLoop 0 (List.replicate max_consecutive_errors false ++ rest) = ⟨5, true, 1⟩) ∧
    (∀ (c : ℕ) (l : List Bool), (runLoop c l).terminated = true →
      (runLoop c l).shutdownNotifs = 1) := by
  have hstep : ∀ (c : ℕ) (rest : List Bool), c + 1 < max_consecutive_errors →
      runLoop c (false :: rest) = runLoop (c + 1) rest := by
    intro c rest h
    rw [runLoop]
    simp only [Bool.false_eq_true, if_false]
    rw [if_neg (by omega)]
  have hfatal : ∀ (c : ℕ) (rest : List Bool), max_consecutive_errors ≤ c + 1 →
      runLoop c (false :: rest) = ⟨c + 1, true, 1⟩ := by
    intro c rest h
    rw [runLoop]
    simp only [Bool.false_eq_true, if_false]
    rw [if_pos h]
  refine ⟨fun c rest => by rw [runLoop]; simp, hstep, hfatal, fun rest => ?_, ?_⟩
  · show runLoop 0 (false :: false :: false :: false :: false :: rest) = ⟨5, true, 1⟩
    rw [hstep 0 _ (by norm_num [max_consecutive_errors]),
      hstep 1 _ (by norm_num [max_consecutive_errors]),
      hstep 2 _ (by norm_num [max_consecutive_errors]),
      hstep 3 _ (by norm_num [max_consecutive_errors]),
      hfatal 4 _ (by norm_num [max_consecutive_errors])]
  · intro c l
    induction l generalizing c with
    | nil => simp [runLoop]
    | cons ok rest ih =>
      rcases ok with _ | _
      · rw [runLoop]
        simp only [Bool.false_eq_true, if_false]
        by_cases h : max_consecutive_errors ≤ c + 1
        · rw [if_pos h]
          intro
          rfl
        · rw [if_neg h]
          exact ih (c + 1)
      · rw [runLoop]
        simp only [if_true]
        exact ih 0

/-- C6 witness: concrete runs of the loop — a success resets the counter,
a failure increments it, the fifth consecutive failure terminates with one
shutdown notification, and five straight failures terminate the loop. -/
theorem C6_witness :
    runLoop 3 (true :: [false]) = runLoop 0 [false] ∧
    runLoop 0 (false :: [true]) = runLoop 1 [true] ∧
    runLoop 4 (false :: [true, true]) = ⟨5, true, 1⟩ ∧
    runLoop 0 (List.replicate max_consecutive_errors false ++ [true]) = ⟨5, true, 1⟩ ∧
    (runLoop 4 [false]).shutdownNotifs = 1 :=
  ⟨C6_theorem.1 3 [false],
   C6_theorem.2.1 0 [true] (by norm_num [max_consecutive_errors]),
   C6_theorem.2.2.1 4 [true, true] (by norm_num [max_consecutive_errors]),
   C6_theorem.2.2.2.1 [true],
   C6_theorem.2.2.2.2 4 [false]
     (by rw [C6_theorem.2.2.1 4 [] (by norm_num [max_consecutive_errors])])⟩

/-- C9 (amended): in any cycle in which a symbol is present in both
snapshots, its size change exceeds 0.01 in the long-reduction direction
(negative change with positive previous size), the caller holds a
position of absolute size above 0.001, the symbol passes the
allowed-coins filter, and the proportional close amount survives the
rounding threshold (`|round(|Δ|·ratio, prec)| > 0.001`), the cycle
submits exactly two close orders for that symbol: one from
`place_copy_order`'s sell path and one from the closed-or-reduced pass.
(For short reductions the first pass instead submits a buy-direction
market-open, and when the rounded close amount is at most 0.001 the
second close is not emitted.) -/
theorem C9_theorem (useIsolated : Bool) (maxLev : ℚ) (levOk marginOk : Bool)
    (allowed : Option (List String)) (copyExisting : Bool) (copyPct : ℚ)
    (lastPositions currentPositions : List (String × ℚ))
    (myPos priceOf : String → ℚ) (coin : String) (prev curr : ℚ)
    (hndl : (lastPositions.map Prod.fst).Nodup)
    (hndc : (currentPositions.map Prod.fst).Nodup)
    (hinL : lastPositions.lookup coin = some prev)
    (hinC : currentPositions.lookup coin = some curr)
    (ha : allowedOk allowed coin = true)
    (hprev : 0 < prev)
    (hneg : curr - prev < 0)
    (hmag : 1/100 < |curr - prev|)
    (hmy : 1/1000 < |myPos coin|)
    (hca : 1/1000 < |pyRound (|curr - prev| * copyPct) (coinPrecision coin)|) :
    (monitorStep useIsolated maxLev levOk marginOk allowed copyExisting copyPct
        lastPositions currentPositions myPos priceOf).events.countP
      (isCloseFor coin) = 2 := by
  have hq : ∀ e : Event, isCloseFor coin e = true → Event.coin e = coin := by
    intro e h
    cases e <;> simp_all [isCloseFor, Event.coin]
  show (pass1 useIsolated maxLev levOk marginOk allowed copyExisting copyPct
      lastPositions currentPositions myPos priceOf ++
    pass2 allowed copyPct lastPositions currentPositions myPos).countP _ = 2
  rw [List.countP_append]
  have hp1 : (pass1 useIsolated maxLev levOk marginOk allowed copyExisting copyPct
      lastPositions currentPositions myPos priceOf).countP (isCloseFor coin) = 1 := by
    unfold pass1
    rw [countP_flatMap_lookup _ _ currentPositions coin curr hndc hinC]
    · have hentry := pass1Entry_eq useIsolated maxLev levOk marginOk allowed copyExisting
        copyPct lastPositions myPos priceOf (coin, curr) ha
        (fun hc => by
          rw [isEmpty_eq_false_of_lookup coin prev lastPositions hinL] at hc
          exact Bool.false_ne_true hc.1)
        (by
          show 1/100 < |curr - (lastPositions.lookup coin).getD 0|
          rw [hinL]
          exact hmag)
      rw [hentry]
      show (placeCopyOrder useIsolated maxLev levOk marginOk copyPct myPos priceOf
        coin curr ((lastPositions.lookup coin).getD 0)).countP (isCloseFor coin) = 1
      rw [hinL]
      show (placeCopyOrder useIsolated maxLev levOk marginOk copyPct myPos priceOf
        coin curr prev).countP (isCloseFor coin) = 1
      rw [placeCopyOrder_sell _ _ _ _ _ _ _ _ _ _ (by linarith) (lt_asymm hneg)
        (not_lt.mpr (le_of_lt hmy))]
      simp [isCloseFor]
    · intro x hx hne
      exact countP_coin_zero _ x.1 coin _ hq
        (fun e he => by
          have h := mem_pass1Entry useIsolated maxLev levOk marginOk allowed copyExisting
            copyPct lastPositions myPos priceOf x e he
          exact coin_of_mem_placeCopyOrder useIsolated maxLev levOk marginOk copyPct
            myPos priceOf x.1 x.2 ((lastPositions.lookup x.1).getD 0) e h.1)
        hne
  have hp2 : (pass2 allowed copyPct lastPositions currentPositions myPos).countP
      (isCloseFor coin) = 1 := by
    unfold pass2
    rw [countP_flatMap_lookup _ _ lastPositions coin prev hndl hinL]
    · rw [pass2Entry_reduce allowed copyPct currentPositions myPos (coin, prev) curr ha hinC
        ⟨hmag, Or.inl ⟨hneg, hprev⟩⟩ hmy hca]
      simp [isCloseFor]
    · intro x hx hne
      exact countP_coin_zero _ x.1 coin _ hq
        (fun e he => (coin_of_mem_pass2Entry allowed copyPct currentPositions myPos x e he).1)
        hne
  rw [hp1, hp2]

/-- C9 witness: SOL reduced from 2 to 1.5 with ratio 0.5, held position 1
and price 150: the cycle emits exactly two close orders for SOL. -/
theorem C9_witness :
    (monitorStep false 10 true true none false (1/2)
        [("SOL", 2)] [("SOL", 3/2)] (fun _ => 1) (fun _ => 150)).events.countP
      (isCloseFor "SOL") = 2 := by
  apply C9_theorem false 10 true true none false (1/2)
    [("SOL", 2)] [("SOL", 3/2)] (fun _ => 1) (fun _ => 150) "SOL" 2 (3/2)
    (by simp) (by simp) (by rfl) (by rfl) (by rfl)
    (by norm_num) (by norm_num) (by norm_num [abs_of_neg]) (by norm_num [abs_of_pos])
  show 1/1000 < |pyRound (|(3:ℚ)/2 - 2| * (1/2)) (coinPrecision "SOL")|
  have : |(3:ℚ)/2 - 2| * (1/2) = 1/4 := by norm_num [abs_of_neg]
  rw [this, coinPrecision_SOL]
  norm_num [pyRound, roundHalfEven, abs_of_pos]

/-- C9 counterexample: a short reduction (SOL from -1 to -0.5, positive
change with negative previous size) satisfies the claim's conditions, yet
the cycle emits only one close order: the first pass goes through the buy
path and submits a market-open instead of a second close. -/
theorem C9_counterexample :
    (monitorStep false 10 true true none false (1/2)
        [("SOL", -1)] [("SOL", -1/2)] (fun _ => -1) (fun _ => 150)).events.countP
      (isCloseFor "SOL") = 1 ∧
    Event.orderOpen "SOL" true (buyPathFinalSize "SOL" (|(-1:ℚ)/2 - -1| * (1/2)) 150) ∈
      (monitorStep false 10 true true none false (1/2)
        [("SOL", -1)] [("SOL", -1/2)] (fun _ => -1) (fun _ => 150)).events := by
  have hentry : pass1Entry false 10 true true none false (1/2)
      [("SOL", -1)] (fun _ => -1) (fun _ => 150) ("SOL", -1/2) =
      placeCopyOrder false 10 true true (1/2) (fun _ => -1) (fun _ => 150)
        "SOL" (-1/2) (-1) := by
    have h := pass1Entry_eq false 10 true true none false (1/2)
      [("SOL", -1)] (fun _ => -1) (fun _ => 150) ("SOL", -1/2) rfl
      (fun hc => by simp at hc)
      (by
        show 1/100 < |(-1:ℚ)/2 - (List.lookup "SOL" [("SOL", -1)]).getD 0|
        norm_num [List.lookup, abs_of_pos])
    rw [h]
    show placeCopyOrder false 10 true true (1/2) (fun _ => -1) (fun _ => 150)
        "SOL" (-1/2) ((List.lookup "SOL" [("SOL", -1)]).getD 0) = _
    rfl
  have hbuy : placeCopyOrder false 10 true true (1/2) (fun _ => -1) (fun _ => 150)
      "SOL" (-1/2) (-1) =
      [Event.orderOpen "SOL" true (buyPathFinalSize "SOL" (|(-1:ℚ)/2 - -1| * (1/2)) 150)] := by
    rw [placeCopyOrder_buy _ _ _ _ _ _ _ _ _ _ (by norm_num [abs_of_pos]) (by norm_num)]
    rfl
  have hreduce : pass2Entry none (1/2) [("SOL", -1/2)] (fun _ => -1) ("SOL", -1) =
      [Event.orderClose "SOL" (some (pyRound (|(-1:ℚ)/2 - -1| * (1/2)) (coinPrecision "SOL")))] := by
    apply pass2Entry_reduce none (1/2) [("SOL", -1/2)] (fun _ => -1) ("SOL", -1)
       ((-1:ℚ)/2) rfl rfl
    · exact ⟨by norm_num [abs_of_pos], Or.inr ⟨by norm_num, by norm_num⟩⟩
    · norm_num [abs_of_neg]
    · show 1/1000 < |pyRound (|(-1:ℚ)/2 - -1| * (1/2)) (coinPrecision "SOL")|
      have harg : |(-1:ℚ)/2 - -1| * (1/2) = 1/4 := by norm_num [abs_of_pos]
      rw [harg, coinPrecision_SOL]
      norm_num [pyRound, roundHalfEven, abs_of_pos]
  have hev : (monitorStep false 10 true true none false (1/2)
      [("SOL", -1)] [("SOL", -1/2)] (fun _ => -1) (fun _ => 150)).events =
      [Event.orderOpen "SOL" true (buyPathFinalSize "SOL" (|(-1:ℚ)/2 - -1| * (1/2)) 150),
       Event.orderClose "SOL" (some (pyRound (|(-1:ℚ)/2 - -1| * (1/2)) (coinPrecision "SOL")))] := by
    show pass1 false 10 true true none false (1/2)
        [("SOL", -1)] [("SOL", -1/2)] (fun _ => -1) (fun _ => 150) ++
      pass2 none (1/2) [("SOL", -1)] [("SOL", -1/2)] (fun _ => -1) = _
    unfold pass1 pass2
    rw [List.flatMap_cons, List.flatMap_nil, List.flatMap_cons, List.flatMap_nil]
    rw [hentry, hbuy, hreduce]
    rfl
  rw [hev]
  constructor
  · simp [isCloseFor]
  · simp

/-- C10: when an allowed-coins list is configured, every event the
monitoring cycle emits (orders of either pass and notifications alike)
concerns a coin in that list, whatever the snapshots contain; and when the
list is absent (`none`), the cycle behaves exactly as if every coin
occurring in either snapshot were allowed. -/
theorem C10_theorem :
    (∀ (useIsolated : Bool) (maxLev : ℚ) (levOk marginOk : Bool) (l : List String)
        (copyExisting : Bool) (copyPct : ℚ)
        (lastPositions currentPositions : List (String × ℚ))
        (myPos priceOf : String → ℚ) (e : Event),
      e ∈ (monitorStep useIsolated maxLev levOk marginOk (some l) copyExisting copyPct
          lastPositions currentPositions myPos priceOf).events →
        Event.coin e ∈ l) ∧
    (∀ (useIsolated : Bool) (maxLev : ℚ) (levOk marginOk : Bool)
        (copyExisting : Bool) (copyPct : ℚ)
        (lastPositions currentPositions : List (String × ℚ))
        (myPos priceOf : String → ℚ),
      monitorStep useIsolated maxLev levOk marginOk none copyExisting copyPct
          lastPositions currentPositions myPos priceOf =
        monitorStep useIsolated maxLev levOk marginOk
          (some (currentPositions.map Prod.fst ++ lastPositions.map Prod.fst))
          copyExisting copyPct lastPositions currentPositions myPos priceOf) := by
  constructor
  · intro useIsolated maxLev levOk marginOk l copyExisting copyPct
      lastPositions currentPositions myPos priceOf e he
    have he' : e ∈ pass1 useIsolated maxLev levOk marginOk (some l) copyExisting copyPct
        lastPositions currentPositions myPos priceOf ++
      pass2 (some l) copyPct lastPositions currentPositions myPos := he
    rcases List.mem_append.mp he' with h1 | h2
    · obtain ⟨x, hx, hex⟩ := List.mem_flatMap.mp h1
      have hm := mem_pass1Entry useIsolated maxLev levOk marginOk (some l) copyExisting
        copyPct lastPositions myPos priceOf x e hex
      have hcoin := coin_of_mem_placeCopyOrder useIsolated maxLev levOk marginOk copyPct
        myPos priceOf x.1 x.2 ((lastPositions.lookup x.1).getD 0) e hm.1
      rw [hcoin]
      have := hm.2
      simpa [allowedOk] using this
    · obtain ⟨x, hx, hex⟩ := List.mem_flatMap.mp h2
      have hm := coin_of_mem_pass2Entry (some l) copyPct currentPositions myPos x e hex
      rw [hm.1]
      have := hm.2
      simpa [allowedOk] using this
  · intro useIsolated maxLev levOk marginOk copyExisting copyPct
      lastPositions currentPositions myPos priceOf
    have hbig : ∀ c : String,
        c ∈ currentPositions.map Prod.fst ++ lastPositions.map Prod.fst →
        allowedOk (some (currentPositions.map Prod.fst ++ lastPositions.map Prod.fst)) c
          = true := by
      intro c hc
      simpa [allowedOk] using hc
    have hpass1 : pass1 useIsolated maxLev levOk marginOk none copyExisting copyPct
        lastPositions currentPositions myPos priceOf =
        pass1 useIsolated maxLev levOk marginOk
          (some (currentPositions.map Prod.fst ++ lastPositions.map Prod.fst))
          copyExisting copyPct lastPositions currentPositions myPos priceOf := by
      unfold pass1
      apply List.flatMap_congr
      intro x hx
      have hc : allowedOk
          (some (currentPositions.map Prod.fst ++ lastPositions.map Prod.fst)) x.1 = true :=
        hbig x.1 (List.mem_append_left _ (List.mem_map_of_mem Prod.fst hx))
      unfold pass1Entry
      dsimp only
      rw [hc]
      rfl
    have hpass2 : pass2 none copyPct lastPositions currentPositions myPos =
        pass2 (some (currentPositions.map Prod.fst ++ lastPositions.map Prod.fst))
          copyPct lastPositions currentPositions myPos := by
      unfold pass2
      apply List.flatMap_congr
      intro x hx
      have hc : allowedOk
          (some (currentPositions.map Prod.fst ++ lastPositions.map Prod.fst)) x.1 = true :=
        hbig x.1 (List.mem_append_right _ (List.mem_map_of_mem Prod.fst hx))
      unfold pass2Entry
      dsimp only
      rw [hc]
      rfl
    show CycleOut.mk _ _ = CycleOut.mk _ _
    rw [hpass1, hpass2]

/-- C10 witness: with allowed list `["SOL"]`, the full-close notification
emitted for SOL concerns a coin of the list; and a cycle with no filter
equals the same cycle with every snapshot coin allowed. -/
theorem C10_witness :
    Event.coin (Event.notifyClosed "SOL") ∈ ["SOL"] ∧
    monitorStep false 10 true true none false (1/100)
        [("SOL", 5)] [] (fun _ => 26/5) (fun _ => 0) =
      monitorStep false 10 true true (some (([] : List (String × ℚ)).map Prod.fst ++
          [("SOL", (5:ℚ))].map Prod.fst)) false (1/100)
        [("SOL", 5)] [] (fun _ => 26/5) (fun _ => 0) :=
  ⟨C10_theorem.1 false 10 true true ["SOL"] false (1/100)
      [("SOL", 5)] [] (fun _ => 26/5) (fun _ => 0) (Event.notifyClosed "SOL")
      (by
        show Event.notifyClosed "SOL" ∈
          pass1 false 10 true true (some ["SOL"]) false (1/100)
            [("SOL", 5)] [] (fun _ => 26/5) (fun _ => 0) ++
          pass2 (some ["SOL"]) (1/100) [("SOL", 5)] [] (fun _ => 26/5)
        unfold pass1 pass2
        rw [List.flatMap_nil, List.flatMap_cons, List.flatMap_nil,
          pass2Entry_full_close (some ["SOL"]) (1/100) [] (fun _ => 26/5) ("SOL", 5)
            rfl rfl (by norm_num [abs_of_pos])]
        simp),
   C10_theorem.2 false 10 true true false (1/100)
      [("SOL", 5)] [] (fun _ => 26/5) (fun _ => 0)⟩

end CopyTrade
